import Mathlib

/-!
Verification development for the browser video/audio trimming tool
(export pipeline, progress tracking, file selection and stall detection).

The TypeScript source is shallowly embedded. Conventions:
* JavaScript numbers are idealized as exact rationals extended with the
  IEEE special values `NaN` and `±Infinity` (type `JsNum`); binary
  floating-point rounding is not modelled.  Every operation appearing in
  the embedded code paths (`+`, `*`, `/`, `Math.round`, `Math.min`) is
  given its JavaScript semantics on these values, except that signed
  zero is identified with zero.
* JavaScript strings are modelled as `String` / `List Char`;
  `String.prototype.split` with a one-character separator is `splitOnChar`,
  `String.prototype.includes` is `containsSeq`, `toLowerCase` is modelled
  on the ASCII range by `Char.toLower`.
* The single regular expression of the source,
  `/time=(\d{2}:\d{2}:\d{2}\.\d+)/`, is embedded directly by
  `findTimeMatch` (scan for the literal `time=`, then match the
  timestamp shape with a greedy final digit run).
* The asynchronous export handler is embedded as a function from the
  selected file, the trim range and an oracle describing which engine
  operations succeed (`EngineEnv`) to the sequence of engine operations
  performed plus the resulting UI state (`ExportResult`).
-/

/-- JavaScript number idealized as a rational plus the special values.
`inf true` is `+Infinity`, `inf false` is `-Infinity`. -/
inductive JsNum where
  | nan : JsNum
  | inf : Bool → JsNum
  | num : ℚ → JsNum
deriving DecidableEq, Repr

/-- JavaScript `+` on `JsNum`. -/
def JsNum.add : JsNum → JsNum → JsNum
  | nan, _ => nan
  | _, nan => nan
  | inf s, inf t => if s = t then inf s else nan
  | inf s, num _ => inf s
  | num _, inf t => inf t
  | num a, num b => num (a + b)

/-- JavaScript `*` on `JsNum`. -/
def JsNum.mul : JsNum → JsNum → JsNum
  | nan, _ => nan
  | _, nan => nan
  | inf s, inf t => inf (decide (s = t))
  | inf s, num b => if b = 0 then nan else if 0 < b then inf s else inf (!s)
  | num a, inf t => if a = 0 then nan else if 0 < a then inf t else inf (!t)
  | num a, num b => num (a * b)

/-- JavaScript `/` on `JsNum` (signed zero is identified with zero, so a
nonzero value divided by zero gives an infinity whose sign is that of the
dividend). -/
def JsNum.div : JsNum → JsNum → JsNum
  | nan, _ => nan
  | _, nan => nan
  | inf _, inf _ => nan
  | inf s, num b => if 0 ≤ b then inf s else inf (!s)
  | num _, inf _ => num 0
  | num a, num b =>
      if b = 0 then (if a = 0 then nan else if 0 < a then inf true else inf false)
      else num (a / b)

/-- `Math.round`: round half up, i.e. `⌊x + 1/2⌋` on finite values. -/
def jsRound : JsNum → JsNum
  | JsNum.nan => JsNum.nan
  | JsNum.inf s => JsNum.inf s
  | JsNum.num q => JsNum.num ((⌊q + 1/2⌋ : ℤ) : ℚ)

/-- `Math.min` (NaN propagates). -/
def jsMin : JsNum → JsNum → JsNum
  | JsNum.nan, _ => JsNum.nan
  | _, JsNum.nan => JsNum.nan
  | JsNum.inf true, y => y
  | JsNum.inf false, _ => JsNum.inf false
  | x, JsNum.inf true => x
  | _, JsNum.inf false => JsNum.inf false
  | JsNum.num a, JsNum.num b => JsNum.num (min a b)

/-- Decimal value of a digit string (most significant first), as in the
integer / fractional parts consumed by `parseFloat`. -/
def digitsVal (l : List Char) : ℕ :=
  l.foldl (fun acc c => acc * 10 + (c.toNat - 48)) 0

/-- Whitespace skipped by JavaScript `parseFloat` (ASCII part). -/
def isJsSpace (c : Char) : Bool :=
  c = ' ' || c = '\t' || c = '\n' || c = '\r' || c = '\x0b' || c = '\x0c'

/-- Exponent part of a JavaScript float literal: optional sign then digits;
an exponent with no digits is ignored (contributes 0). -/
def parseExpPart (s : List Char) : ℤ :=
  let s1 := if s.headD ' ' = '-' ∨ s.headD ' ' = '+' then s.tail else s
  let ds := s1.takeWhile Char.isDigit
  if ds = [] then 0
  else if s.headD ' ' = '-' then -(digitsVal ds : ℤ) else (digitsVal ds : ℤ)

/-- JavaScript `parseFloat`: skip leading whitespace, optional sign,
`Infinity` or decimal digits with optional fraction and exponent; `NaN`
when no digits are found.  Trailing garbage is ignored. -/
def parseFloat (s0 : List Char) : JsNum :=
  let s1 := s0.dropWhile isJsSpace
  let h0 := s1.headD ' '
  let s2 := if h0 = '-' ∨ h0 = '+' then s1.tail else s1
  if s2.take 8 = ['I', 'n', 'f', 'i', 'n', 'i', 't', 'y'] then
    JsNum.inf (decide (h0 ≠ '-'))
  else
    let ip := s2.takeWhile Char.isDigit
    let s3 := s2.dropWhile Char.isDigit
    let fp := if s3.headD ' ' = '.' then s3.tail.takeWhile Char.isDigit else []
    let s4 := if s3.headD ' ' = '.' then s3.tail.dropWhile Char.isDigit else s3
    if ip = [] ∧ fp = [] then JsNum.nan
    else
      let sign : ℚ := if h0 = '-' then -1 else 1
      let ex : ℤ := if s4.headD ' ' = 'e' ∨ s4.headD ' ' = 'E' then parseExpPart s4.tail else 0
      JsNum.num (sign * ((digitsVal ip : ℚ) + (digitsVal fp : ℚ) / 10 ^ fp.length) * 10 ^ ex)

/-- JavaScript `String.prototype.split` with a one-character separator. -/
def splitOnChar (sep : Char) : List Char → List (List Char)
  | [] => [[]]
  | c :: rest =>
      let r := splitOnChar sep rest
      if c = sep then [] :: r
      else (c :: r.headD []) :: r.tail

/-- Source `parseFfmpegTime` (spec name `parseEngineTimestamp`):

    const parseFfmpegTime = (timeStr: string): number => {
      const parts = timeStr.split(':');
      if (parts.length < 3) return 0;
      const h = parseFloat(parts[0]);
      const m = parseFloat(parts[1]);
      const s = parseFloat(parts[2]);
      return h * 3600 + m * 60 + s;
    };
-/
def parseFfmpegTime (timeStr : String) : JsNum :=
  let parts := splitOnChar ':' timeStr.toList
  if parts.length < 3 then JsNum.num 0
  else
    let h := parseFloat (parts.getD 0 [])
    let m := parseFloat (parts.getD 1 [])
    let s := parseFloat (parts.getD 2 [])
    ((h.mul (JsNum.num 3600)).add (m.mul (JsNum.num 60))).add s

/-- Does `needle` occur at the start of `hay`? (helper for the embedded
regular-expression scan and for `String.prototype.includes`). -/
def startsWithSeq : List Char → List Char → Bool
  | [], _ => true
  | _ :: _, [] => false
  | a :: as, b :: bs => a = b && startsWithSeq as bs

/-- JavaScript `String.prototype.includes` on character lists. -/
def containsSeq (needle : List Char) : List Char → Bool
  | [] => needle.isEmpty
  | c :: rest => startsWithSeq needle (c :: rest) || containsSeq needle rest

/-- Match the timestamp part `\d{2}:\d{2}:\d{2}\.\d+` of the progress
regular expression at the head of `s`, returning the captured text
(the final digit run is greedy, as in the regex). -/
def matchTimestampAt : List Char → Option (List Char)
  | d1 :: d2 :: c1 :: d3 :: d4 :: c2 :: d5 :: d6 :: dot :: rest =>
      if d1.isDigit ∧ d2.isDigit ∧ c1 = ':' ∧ d3.isDigit ∧ d4.isDigit ∧ c2 = ':' ∧
         d5.isDigit ∧ d6.isDigit ∧ dot = '.' ∧ rest.takeWhile Char.isDigit ≠ [] then
        some (d1 :: d2 :: ':' :: d3 :: d4 :: ':' :: d5 :: d6 :: '.' ::
              rest.takeWhile Char.isDigit)
      else none
  | _ => none

/-- `message.match(/time=(\d{2}:\d{2}:\d{2}\.\d+)/)`: scan left to right
for an occurrence of the literal `time=` followed by a timestamp; the
returned value is capture group 1 of the first such occurrence. -/
def findTimeMatch : List Char → Option (List Char)
  | [] => none
  | c :: rest =>
      match (if startsWithSeq ['t', 'i', 'm', 'e', '='] (c :: rest) then
               matchTimestampAt ((c :: rest).drop 5)
             else none) with
      | some ts => some ts
      | none => findTimeMatch rest

/-- Body of the progress log sink installed by `handleExport` for one
matched log line:

      const currentTime = parseFfmpegTime(match[1]);
      const percent = Math.min(Math.round((currentTime / durationTime) * 100), 100);
-/
def percentOf (durationTime : ℚ) (ts : String) : JsNum :=
  let currentTime := parseFfmpegTime ts
  jsMin (jsRound ((currentTime.div (JsNum.num durationTime)).mul (JsNum.num 100)))
    (JsNum.num 100)

/-- One engine log line as processed by the progress log sink: `some p`
when the line publishes progress value `p` (the line contains `time=`
and the regular expression matches), `none` when the sink leaves the
progress state untouched. -/
def logLinePercent (durationTime : ℚ) (message : String) : Option JsNum :=
  if containsSeq ['t', 'i', 'm', 'e', '='] message.toList then
    match findTimeMatch message.toList with
    | some ts => some (percentOf durationTime (String.mk ts))
    | none => none
  else none

/-- The sequence of progress values published (`setProgress` calls) by the
log sink over a sequence of engine log lines of one job. -/
def publishedValues (durationTime : ℚ) (messages : List String) : List JsNum :=
  messages.filterMap (logLinePercent durationTime)

/-- Source (`handleExport`):
`const extension = (videoFile.name.split('.').pop() || 'mp4').toLowerCase();`
`Array.prototype.pop` on the result of `split` is `getLastD` (the split
result is never empty); `|| 'mp4'` replaces only the empty string, and
`toLowerCase` is applied afterwards (ASCII model). -/
def deriveExtension (name : String) : String :=
  let parts := splitOnChar '.' name.toList
  let popped := parts.getLastD []
  let ext := if popped = [] then ['m', 'p', '4'] else popped
  String.mk (ext.map Char.toLower)

/-- `const safeInputName = ` followed by the template
`input_source.` + extension. -/
def safeInputName (name : String) : String :=
  "input_source." ++ deriveExtension name

/-- `const safeOutputName = 'output_processed.mp4';` -/
def safeOutputName : String := "output_processed.mp4"

/-- Source `formatTime` (spec name `toDisplay`), for the nonnegative
finite inputs supplied by callers (`m = Math.floor(x/60)`,
`s = Math.floor(x % 60)`, seconds zero-padded to two digits).
JavaScript `%` on nonnegative operands is subtraction of the floored
multiple. -/
def formatTime (seconds : ℚ) : String :=
  let m : ℤ := ⌊seconds / 60⌋
  let s : ℤ := ⌊seconds⌋ - 60 * m
  let sStr := toString s
  toString m ++ ":" ++ (if sStr.length ≥ 2 then sStr
                        else if sStr.length = 1 then "0" ++ sStr else "00")

/-- The user-selected file as the core sees it: a declared name and a byte
size (the binary content itself is opaque and never inspected). -/
structure JsFile where
  name : String
  size : ℕ
deriving DecidableEq, Repr

/-- Oracle for the engine collaborator: which engine-session operations
succeed during one export.  `loaded` is `ffmpeg.isLoaded()` at entry;
the other fields say whether the corresponding awaited call throws. -/
structure EngineEnv where
  loaded : Bool
  loadOk : Bool
  writeOk : Bool
  runOk : Bool
  readOk : Bool
  unlinkOk : Bool
deriving DecidableEq, Repr

/-- Engine-session operations performed by `handleExport`, in order.
`run` records the varying values of the fixed argument template
(`-ss <seek> -i <input> -t <dur> ... <output>`); the constant flag
strings are not repeated here. -/
inductive Step where
  | setProgressLogger
  | load
  | write (name : String)
  | run (seek : ℚ) (input : String) (dur : ℚ) (output : String)
  | read (name : String)
  | download (filename : String)
  | unlink (name : String)
  | setNoopLogger
deriving DecidableEq, Repr

/-- Which log sink is currently installed on the engine session. -/
inductive LogSink where
  | initial
  | progress (durationTime : ℚ)
  | noop
deriving DecidableEq, Repr

/-- Result of one export invocation. -/
inductive ExportOutcome where
  | notStarted
  | success
  | failure
deriving DecidableEq, Repr

/-- Observable result of `handleExport`: engine operations attempted (in
order, including the one that threw, if any), the outcome, the error
banner set by the catch block, whether `isProcessing` is still true at
resolution, the delay of the scheduled `setIsProcessing(false)`, and the
log sink left installed. -/
structure ExportResult where
  steps : List Step
  outcome : ExportOutcome
  errorMsg : Option String
  isProcessingNow : Bool
  clearDelayMs : Option ℕ
  finalSink : LogSink
deriving DecidableEq, Repr

/-- The `try` block of `handleExport` after the names are derived:
returns the engine operations attempted and whether the block ran to
completion (`false` = an awaited engine call threw and control passes
to `catch`).  The inner cleanup `try` swallows unlink errors, so a
failing unlink of the input skips the unlink of the output but does not
fail the job. -/
def tryBody (file : JsFile) (rangeStart rangeEnd : ℚ) (env : EngineEnv) :
    List Step × Bool :=
  let safeInput := safeInputName file.name
  let durationTime := rangeEnd - rangeStart
  let s0 : List Step := [Step.setProgressLogger]
  let loadSteps : List Step := if env.loaded then [] else [Step.load]
  let loadOk : Bool := env.loaded || env.loadOk
  if !loadOk then (s0 ++ loadSteps, false) else
  let s1 := s0 ++ loadSteps ++ [Step.write safeInput]
  if !env.writeOk then (s1, false) else
  let s2 := s1 ++ [Step.run rangeStart safeInput durationTime safeOutputName]
  if !env.runOk then (s2, false) else
  let s3 := s2 ++ [Step.read safeOutputName]
  if !env.readOk then (s3, false) else
  let s4 := s3 ++ [Step.download
    ("split_" ++ formatTime rangeStart ++ "-" ++ formatTime rangeEnd ++ ".mp4")]
  let s5 := s4 ++ (if env.unlinkOk then [Step.unlink safeInput, Step.unlink safeOutputName]
                   else [Step.unlink safeInput])
  (s5, true)

/-- Source `handleExport`.  `if (!videoFile) return;` is the `none` case:
the handler returns before the `try` block, so nothing happens and the
incoming log sink stays installed.  Otherwise the `try`/`catch`/`finally`
runs: `catch` sets the generic error banner, `finally` always restores
the no-op log sink and schedules `setIsProcessing(false)` after 1000 ms. -/
def handleExport (file? : Option JsFile) (rangeStart rangeEnd : ℚ)
    (env : EngineEnv) (sink0 : LogSink) : ExportResult :=
  match file? with
  | none =>
      { steps := [], outcome := ExportOutcome.notStarted, errorMsg := none,
        isProcessingNow := false, clearDelayMs := none, finalSink := sink0 }
  | some file =>
      let r := tryBody file rangeStart rangeEnd env
      { steps := r.1 ++ [Step.setNoopLogger]
        outcome := if r.2 then ExportOutcome.success else ExportOutcome.failure
        errorMsg := if r.2 then none else some "書き出し中にエラーが発生しました。"
        isProcessingNow := true
        clearDelayMs := some 1000
        finalSink := LogSink.noop }

/-- `isProcessing` after the timeout scheduled in `finally` has fired. -/
def isProcessingAfterDelay (r : ExportResult) : Bool :=
  match r.clearDelayMs with
  | some _ => false
  | none => r.isProcessingNow

/-- Result of the file-selection handler. -/
inductive SelectOutcome where
  | noFile
  | rejected (errMsg : String)
  | accepted
deriving DecidableEq, Repr

/-- Observable result of `handleFileChange`: the outcome, the engine
operations performed (the handler makes no engine call on any path),
and whether the file was stored as the new source. -/
structure SelectResult where
  outcome : SelectOutcome
  engineSteps : List Step
  videoFileSet : Bool
deriving DecidableEq, Repr

/-- Source `handleFileChange`: rejects a file larger than
`1024 * 1024 * 1024` bytes with the size-limit error banner and stores
the file otherwise.  No engine interaction happens on any path. -/
def handleFileChange (file? : Option JsFile) : SelectResult :=
  match file? with
  | none => { outcome := SelectOutcome.noFile, engineSteps := [], videoFileSet := false }
  | some file =>
      if file.size > 1024 * 1024 * 1024 then
        { outcome := SelectOutcome.rejected "ファイルサイズが大きすぎます (1GB制限)",
          engineSteps := [], videoFileSet := false }
      else
        { outcome := SelectOutcome.accepted, engineSteps := [], videoFileSet := true }

/-- State of the slow-processing (stall) detector: the effect watching
`[isProcessing, progress]` plus its pending 5-second timer.
`timerDeadline` is the absolute time (ms) at which the armed timeout
fires, if one is armed. -/
structure SlowState where
  isProcessing : Bool
  progress : JsNum
  isSlow : Bool
  timerDeadline : Option ℕ
deriving DecidableEq, Repr

/-- Events driving the stall detector: `update` is a change of the
watched pair `(isProcessing, progress)` at time `now` (the effect
cleanup clears any pending timer, then the effect re-runs); `fire` is
the timeout callback being invoked at time `now`. -/
inductive SlowEvent where
  | update (isProcessing : Bool) (progress : JsNum) (now : ℕ)
  | fire (now : ℕ)
deriving DecidableEq, Repr

/-- The stall-detection effect:

      if (isProcessing && progress === 0) {
        timeout = setTimeout(() => { setIsSlow(true); ... }, 5000);
      } else {
        setIsSlow(false);
      }
      return () => clearTimeout(timeout);
-/
def slowStep (s : SlowState) (e : SlowEvent) : SlowState :=
  match e with
  | SlowEvent.update p pr now =>
      let s1 : SlowState :=
        { s with timerDeadline := none, isProcessing := p, progress := pr }
      if p = true ∧ pr = JsNum.num 0 then { s1 with timerDeadline := some (now + 5000) }
      else { s1 with isSlow := false }
  | SlowEvent.fire now =>
      match s.timerDeadline with
      | some d => if d ≤ now then { s with isSlow := true, timerDeadline := none } else s
      | none => s

/-! ### Helper lemmas: characters, lists, `splitOnChar` -/

theorem ne_of_isDigit {c : Char} (h : c.isDigit = true) (x : Char)
    (hx : x.isDigit = false) : c ≠ x := by
  intro hcx
  rw [hcx, hx] at h
  cases h

theorem isJsSpace_of_isDigit {c : Char} (h : c.isDigit = true) :
    isJsSpace c = false := by
  simp only [isJsSpace, Bool.or_eq_false_iff, decide_eq_false_iff_not]
  refine ⟨⟨⟨⟨⟨?_, ?_⟩, ?_⟩, ?_⟩, ?_⟩, ?_⟩ <;> exact ne_of_isDigit h _ (by decide)

theorem takeWhile_all {α : Type} {p : α → Bool} :
    ∀ l : List α, (∀ c ∈ l, p c = true) → l.takeWhile p = l := by
  intro l
  induction l with
  | nil => intro _; rfl
  | cons a t ih =>
      intro h
      rw [List.takeWhile_cons, h a (List.mem_cons_self a t)]
      simp [ih fun c hc => h c (List.mem_cons_of_mem a hc)]

theorem dropWhile_all {α : Type} {p : α → Bool} :
    ∀ l : List α, (∀ c ∈ l, p c = true) → l.dropWhile p = [] := by
  intro l
  induction l with
  | nil => intro _; rfl
  | cons a t ih =>
      intro h
      rw [List.dropWhile_cons, h a (List.mem_cons_self a t)]
      simp [ih fun c hc => h c (List.mem_cons_of_mem a hc)]

theorem takeWhile_append_all {α : Type} {p : α → Bool} :
    ∀ l r : List α, (∀ c ∈ l, p c = true) →
      (l ++ r).takeWhile p = l ++ r.takeWhile p := by
  intro l
  induction l with
  | nil => intro r _; rfl
  | cons a t ih =>
      intro r h
      rw [List.cons_append, List.takeWhile_cons, h a (List.mem_cons_self a t)]
      simp only [ite_true]
      rw [ih r fun c hc => h c (List.mem_cons_of_mem a hc)]
      rfl

theorem dropWhile_append_all {α : Type} {p : α → Bool} :
    ∀ l r : List α, (∀ c ∈ l, p c = true) →
      (l ++ r).dropWhile p = r.dropWhile p := by
  intro l
  induction l with
  | nil => intro r _; rfl
  | cons a t ih =>
      intro r h
      rw [List.cons_append, List.dropWhile_cons, h a (List.mem_cons_self a t)]
      simp only [ite_true]
      exact ih r fun c hc => h c (List.mem_cons_of_mem a hc)

theorem mem_of_mem_takeWhile {α : Type} {p : α → Bool} :
    ∀ {l : List α} {c : α}, c ∈ l.takeWhile p → p c = true := by
  intro l
  induction l with
  | nil => intro c h; cases h
  | cons a t ih =>
      intro c h
      rw [List.takeWhile_cons] at h
      by_cases hpa : p a = true
      · rw [hpa] at h
        simp only [ite_true] at h
        rcases List.mem_cons.mp h with h1 | h2
        · rwa [h1]
        · exact ih h2
      · rw [Bool.eq_false_iff.mpr hpa] at h
        simp at h

theorem splitOnChar_ne_nil (sep : Char) (l : List Char) :
    splitOnChar sep l ≠ [] := by
  cases l with
  | nil => simp [splitOnChar]
  | cons c rest =>
      simp only [splitOnChar]
      by_cases h : c = sep <;> simp [h]

theorem splitOnChar_no_sep (sep : Char) :
    ∀ l : List Char, (∀ c ∈ l, c ≠ sep) → splitOnChar sep l = [l] := by
  intro l
  induction l with
  | nil => intro _; rfl
  | cons a t ih =>
      intro h
      have ha : a ≠ sep := h a (List.mem_cons_self a t)
      have ht := ih fun c hc => h c (List.mem_cons_of_mem a hc)
      simp [splitOnChar, ha, ht]

theorem splitOnChar_append_sep (sep : Char) :
    ∀ l r : List Char, (∀ c ∈ l, c ≠ sep) →
      splitOnChar sep (l ++ sep :: r) = l :: splitOnChar sep r := by
  intro l
  induction l with
  | nil =>
      intro r _
      simp [splitOnChar]
  | cons a t ih =>
      intro r h
      have ha : a ≠ sep := h a (List.mem_cons_self a t)
      have ht := ih r fun c hc => h c (List.mem_cons_of_mem a hc)
      rw [List.cons_append]
      simp only [splitOnChar, ha, ite_false, ht, if_neg ha]
      rfl

/-! ### `parseFloat` on the digit strings produced by the timestamp regex -/

theorem parseFloat_digits (l : List Char) (h : ∀ c ∈ l, c.isDigit = true)
    (hne : l ≠ []) : parseFloat l = JsNum.num (digitsVal l) := by
  obtain ⟨c, t, rfl⟩ : ∃ c t, l = c :: t := by
    cases l with
    | nil => exact absurd rfl hne
    | cons c t => exact ⟨c, t, rfl⟩
  have hc : c.isDigit = true := h c (List.mem_cons_self c t)
  have hs : isJsSpace c = false := isJsSpace_of_isDigit hc
  have hcm : c ≠ '-' := ne_of_isDigit hc '-' (by decide)
  have hcp : c ≠ '+' := ne_of_isDigit hc '+' (by decide)
  have hcI : c ≠ 'I' := ne_of_isDigit hc 'I' (by decide)
  have htake : (c :: t).takeWhile Char.isDigit = c :: t := takeWhile_all _ h
  have hdropd : (c :: t).dropWhile Char.isDigit = [] := dropWhile_all _ h
  simp only [parseFloat, List.dropWhile_cons, hs, Bool.false_eq_true, ite_false,
    List.headD_cons, hcm, hcp, or_self, List.take_succ_cons, List.cons.injEq,
    false_and, htake, hdropd, List.headD_nil,
    show (' ' = '.') = False from by decide, show (' ' = 'e') = False from by decide,
    show (' ' = 'E') = False from by decide, List.cons_ne_nil, if_false, or_self]
  rw [if_neg (by simp [hcI])]
  norm_num [digitsVal]

theorem parseFloat_digits_frac (a b : List Char)
    (ha : ∀ c ∈ a, c.isDigit = true) (hb : ∀ c ∈ b, c.isDigit = true)
    (hane : a ≠ []) :
    parseFloat (a ++ '.' :: b) =
      JsNum.num ((digitsVal a : ℚ) + (digitsVal b : ℚ) / 10 ^ b.length) := by
  obtain ⟨c, t, rfl⟩ : ∃ c t, a = c :: t := by
    cases a with
    | nil => exact absurd rfl hane
    | cons c t => exact ⟨c, t, rfl⟩
  have hc : c.isDigit = true := ha c (List.mem_cons_self c t)
  have hs : isJsSpace c = false := isJsSpace_of_isDigit hc
  have hcm : c ≠ '-' := ne_of_isDigit hc '-' (by decide)
  have hcp : c ≠ '+' := ne_of_isDigit hc '+' (by decide)
  have hcI : c ≠ 'I' := ne_of_isDigit hc 'I' (by decide)
  have htake : List.takeWhile Char.isDigit (c :: (t ++ '.' :: b)) = c :: t := by
    have h1 := takeWhile_append_all (c :: t) ('.' :: b) ha
    rw [List.cons_append] at h1
    rw [h1, List.takeWhile_cons, show ('.').isDigit = false from by decide]
    simp
  have hdropd : List.dropWhile Char.isDigit (c :: (t ++ '.' :: b)) = '.' :: b := by
    have h1 := dropWhile_append_all (c :: t) ('.' :: b) ha
    rw [List.cons_append] at h1
    rw [h1, List.dropWhile_cons, show ('.').isDigit = false from by decide]
    simp
  have htkb : b.takeWhile Char.isDigit = b := takeWhile_all _ hb
  have hdpb : b.dropWhile Char.isDigit = [] := dropWhile_all _ hb
  simp only [List.cons_append, parseFloat, List.dropWhile_cons, hs, Bool.false_eq_true,
    ite_false, List.headD_cons, hcm, hcp, or_self, List.take_succ_cons, List.cons.injEq,
    false_and, htake, hdropd, List.tail_cons, htkb, hdpb, List.headD_nil, ite_true,
    show ('.' = '.') = True from by decide,
    show (' ' = 'e') = False from by decide,
    show (' ' = 'E') = False from by decide, List.cons_ne_nil, if_false, or_self]
  rw [if_neg (by simp [hcI])]
  norm_num [digitsVal]

/-! ### Characterizing the matches of the progress regular expression -/

theorem matchTimestampAt_spec {s ts : List Char}
    (h : matchTimestampAt s = some ts) :
    ∃ d1 d2 d3 d4 d5 d6 frac,
      ts = d1 :: d2 :: ':' :: d3 :: d4 :: ':' :: d5 :: d6 :: '.' :: frac ∧
      d1.isDigit = true ∧ d2.isDigit = true ∧ d3.isDigit = true ∧
      d4.isDigit = true ∧ d5.isDigit = true ∧ d6.isDigit = true ∧
      (∀ c ∈ frac, c.isDigit = true) ∧ frac ≠ [] := by
  match s, h with
  | d1 :: d2 :: c1 :: d3 :: d4 :: c2 :: d5 :: d6 :: dot :: rest, h => ?_
  simp only [matchTimestampAt] at h
  by_cases hcnd : d1.isDigit = true ∧ d2.isDigit = true ∧ c1 = ':' ∧ d3.isDigit = true ∧
      d4.isDigit = true ∧ c2 = ':' ∧ d5.isDigit = true ∧ d6.isDigit = true ∧ dot = '.' ∧
      rest.takeWhile Char.isDigit ≠ []
  · obtain ⟨h1, h2, hc1, h3, h4, hc2, h5, h6, hdot, hfr⟩ := hcnd
    rw [if_pos ⟨h1, h2, hc1, h3, h4, hc2, h5, h6, hdot, hfr⟩] at h
    refine ⟨d1, d2, d3, d4, d5, d6, rest.takeWhile Char.isDigit, ?_,
      h1, h2, h3, h4, h5, h6, ?_, hfr⟩
    · exact (Option.some.injEq _ _).mp h |>.symm
    · intro c hc
      exact mem_of_mem_takeWhile hc
  · rw [if_neg hcnd] at h
    cases h

theorem findTimeMatch_timestamp :
    ∀ {l ts : List Char}, findTimeMatch l = some ts →
      ∃ s, matchTimestampAt s = some ts := by
  intro l
  induction l with
  | nil => intro ts h; cases h
  | cons c rest ih =>
      intro ts h
      simp only [findTimeMatch] at h
      by_cases hpre : startsWithSeq ['t', 'i', 'm', 'e', '='] (c :: rest) = true
      · rw [if_pos hpre] at h
        cases hm : matchTimestampAt ((c :: rest).drop 5) with
        | some ts1 =>
            rw [hm] at h
            simp only at h
            exact ⟨(c :: rest).drop 5, by rw [hm, h]⟩
        | none =>
            rw [hm] at h
            simp only at h
            exact ih h
      · rw [if_neg hpre] at h
        simp only at h
        exact ih h

theorem findTimeMatch_contains :
    ∀ {l ts : List Char}, findTimeMatch l = some ts →
      containsSeq ['t', 'i', 'm', 'e', '='] l = true := by
  intro l
  induction l with
  | nil => intro ts h; cases h
  | cons c rest ih =>
      intro ts h
      simp only [findTimeMatch] at h
      simp only [containsSeq, Bool.or_eq_true]
      by_cases hpre : startsWithSeq ['t', 'i', 'm', 'e', '='] (c :: rest) = true
      · exact Or.inl hpre
      · rw [if_neg hpre] at h
        simp only at h
        exact Or.inr (ih h)

theorem parseFfmpegTime_matched (d1 d2 d3 d4 d5 d6 : Char) (frac : List Char)
    (h1 : d1.isDigit = true) (h2 : d2.isDigit = true) (h3 : d3.isDigit = true)
    (h4 : d4.isDigit = true) (h5 : d5.isDigit = true) (h6 : d6.isDigit = true)
    (hf : ∀ c ∈ frac, c.isDigit = true) :
    parseFfmpegTime
        (String.mk (d1 :: d2 :: ':' :: d3 :: d4 :: ':' :: d5 :: d6 :: '.' :: frac)) =
      JsNum.num ((digitsVal [d1, d2] : ℚ) * 3600 + (digitsVal [d3, d4] : ℚ) * 60 +
        ((digitsVal [d5, d6] : ℚ) + (digitsVal frac : ℚ) / 10 ^ frac.length)) := by
  have htl : (String.mk (d1 :: d2 :: ':' :: d3 :: d4 :: ':' :: d5 :: d6 :: '.' :: frac)).toList
      = d1 :: d2 :: ':' :: d3 :: d4 :: ':' :: d5 :: d6 :: '.' :: frac := rfl
  have hsplit : splitOnChar ':' (d1 :: d2 :: ':' :: d3 :: d4 :: ':' :: d5 :: d6 :: '.' :: frac)
      = [[d1, d2], [d3, d4], d5 :: d6 :: '.' :: frac] := by
    have e1 : d1 :: d2 :: ':' :: d3 :: d4 :: ':' :: d5 :: d6 :: '.' :: frac
        = [d1, d2] ++ ':' :: ([d3, d4] ++ ':' :: (d5 :: d6 :: '.' :: frac)) := by
      simp
    rw [e1]
    rw [splitOnChar_append_sep ':' [d1, d2] _ (by
      intro c hc
      rcases List.mem_pair.mp hc with rfl | rfl
      · exact ne_of_isDigit h1 ':' (by decide)
      · exact ne_of_isDigit h2 ':' (by decide))]
    rw [splitOnChar_append_sep ':' [d3, d4] _ (by
      intro c hc
      rcases List.mem_pair.mp hc with rfl | rfl
      · exact ne_of_isDigit h3 ':' (by decide)
      · exact ne_of_isDigit h4 ':' (by decide))]
    rw [splitOnChar_no_sep ':' (d5 :: d6 :: '.' :: frac) (by
      intro c hc
      rcases List.mem_cons.mp hc with rfl | hc1
      · exact ne_of_isDigit h5 ':' (by decide)
      rcases List.mem_cons.mp hc1 with rfl | hc2
      · exact ne_of_isDigit h6 ':' (by decide)
      rcases List.mem_cons.mp hc2 with rfl | hc3
      · decide
      · exact ne_of_isDigit (hf c hc3) ':' (by decide))]
  have hp1 : parseFloat [d1, d2] = JsNum.num (digitsVal [d1, d2]) :=
    parseFloat_digits [d1, d2] (by
      intro c hc
      rcases List.mem_pair.mp hc with rfl | rfl
      · exact h1
      · exact h2) (by simp)
  have hp2 : parseFloat [d3, d4] = JsNum.num (digitsVal [d3, d4]) :=
    parseFloat_digits [d3, d4] (by
      intro c hc
      rcases List.mem_pair.mp hc with rfl | rfl
      · exact h3
      · exact h4) (by simp)
  have hp3 : parseFloat (d5 :: d6 :: '.' :: frac)
      = JsNum.num ((digitsVal [d5, d6] : ℚ) + (digitsVal frac : ℚ) / 10 ^ frac.length) := by
    have e2 : d5 :: d6 :: '.' :: frac = [d5, d6] ++ '.' :: frac := by simp
    rw [e2]
    exact parseFloat_digits_frac [d5, d6] frac (by
      intro c hc
      rcases List.mem_pair.mp hc with rfl | rfl
      · exact h5
      · exact h6) hf (by simp)
  simp only [parseFfmpegTime, htl, hsplit, List.length_cons, List.length_nil,
    List.getD_cons_zero, List.getD_cons_succ, hp1, hp2, hp3]
  rw [if_neg (by norm_num)]
  simp only [JsNum.mul, JsNum.add]

theorem findTimeMatch_parse {l ts : List Char} (h : findTimeMatch l = some ts) :
    ∃ q : ℚ, 0 ≤ q ∧ parseFfmpegTime (String.mk ts) = JsNum.num q := by
  obtain ⟨s, hs⟩ := findTimeMatch_timestamp h
  obtain ⟨d1, d2, d3, d4, d5, d6, frac, rfl, h1, h2, h3, h4, h5, h6, hf, hfne⟩ :=
    matchTimestampAt_spec hs
  refine ⟨(digitsVal [d1, d2] : ℚ) * 3600 + (digitsVal [d3, d4] : ℚ) * 60 +
    ((digitsVal [d5, d6] : ℚ) + (digitsVal frac : ℚ) / 10 ^ frac.length), ?_, ?_⟩
  · positivity
  · exact parseFfmpegTime_matched d1 d2 d3 d4 d5 d6 frac h1 h2 h3 h4 h5 h6 hf

/-! ### The published percentage for one matched log line -/

theorem percentOf_eq {dur q : ℚ} {ts : List Char} (hdur : dur ≠ 0)
    (hp : parseFfmpegTime (String.mk ts) = JsNum.num q) :
    percentOf dur (String.mk ts)
      = JsNum.num (min ((⌊q / dur * 100 + 1/2⌋ : ℤ) : ℚ) 100) := by
  simp only [percentOf, hp, JsNum.div, hdur, ite_false, JsNum.mul, jsRound, jsMin]

theorem logLinePercent_eq {dur q : ℚ} {msg : String} {ts : List Char} {v : JsNum}
    (hdur : dur ≠ 0)
    (hm : findTimeMatch msg.toList = some ts)
    (hp : parseFfmpegTime (String.mk ts) = JsNum.num q)
    (hv : logLinePercent dur msg = some v) :
    v = JsNum.num (min ((⌊q / dur * 100 + 1/2⌋ : ℤ) : ℚ) 100) := by
  have hct := findTimeMatch_contains hm
  simp only [logLinePercent, hct, ite_true, hm] at hv
  rw [percentOf_eq hdur hp] at hv
  exact ((Option.some.injEq _ _).mp hv).symm

theorem logLinePercent_some {dur q : ℚ} {msg : String} {ts : List Char}
    (hdur : dur ≠ 0)
    (hm : findTimeMatch msg.toList = some ts)
    (hp : parseFfmpegTime (String.mk ts) = JsNum.num q) :
    logLinePercent dur msg
      = some (JsNum.num (min ((⌊q / dur * 100 + 1/2⌋ : ℤ) : ℚ) 100)) := by
  have hct := findTimeMatch_contains hm
  simp only [logLinePercent, hct, ite_true, hm]
  rw [percentOf_eq hdur hp]

theorem percent_bounds {dur q : ℚ} (hdur : 0 < dur) (hq : 0 ≤ q) :
    0 ≤ min ((⌊q / dur * 100 + 1/2⌋ : ℤ) : ℚ) 100 ∧
      min ((⌊q / dur * 100 + 1/2⌋ : ℤ) : ℚ) 100 ≤ 100 := by
  constructor
  · apply le_min
    · have hfl : (0 : ℤ) ≤ ⌊q / dur * 100 + 1/2⌋ := by
        apply Int.le_floor.mpr
        have hqd : 0 ≤ q / dur := div_nonneg hq (le_of_lt hdur)
        push_cast
        nlinarith
      exact_mod_cast hfl
    · norm_num
  · exact min_le_right _ _

theorem percent_full {dur q : ℚ} (hdur : 0 < dur) (hgt : dur < q) :
    min ((⌊q / dur * 100 + 1/2⌋ : ℤ) : ℚ) 100 = 100 := by
  have h1 : (1 : ℚ) < q / dur := (one_lt_div hdur).mpr hgt
  have h2 : (100 : ℚ) ≤ q / dur * 100 + 1/2 := by nlinarith
  have hfl : (100 : ℤ) ≤ ⌊q / dur * 100 + 1/2⌋ := Int.le_floor.mpr (by push_cast; linarith)
  apply min_eq_right
  exact_mod_cast hfl

theorem percent_mono {dur q1 q2 : ℚ} (hdur : 0 < dur) (hle : q1 ≤ q2) :
    min ((⌊q1 / dur * 100 + 1/2⌋ : ℤ) : ℚ) 100 ≤
      min ((⌊q2 / dur * 100 + 1/2⌋ : ℤ) : ℚ) 100 := by
  have h1 : q1 / dur ≤ q2 / dur := div_le_div_of_nonneg_right hle hdur.le
  have h2 : q1 / dur * 100 + 1/2 ≤ q2 / dur * 100 + 1/2 := by nlinarith
  have h3 : ⌊q1 / dur * 100 + 1/2⌋ ≤ ⌊q2 / dur * 100 + 1/2⌋ := Int.floor_le_floor h2
  apply min_le_min _ (le_refl _)
  exact_mod_cast h3

/-! ### Claim theorems -/

/-- C7: `parseEngineTimestamp` (`parseFfmpegTime`) converts `HH:MM:SS.frac`
text to seconds as `h*3600 + m*60 + s`, so `parseFfmpegTime "00:01:30.50"`
equals 90.5; and for every input with fewer than 3 colon-delimited parts it
returns 0 rather than failing, so `parseFfmpegTime "garbage"` equals 0. -/
theorem C7_parseEngineTimestamp :
    parseFfmpegTime "00:01:30.50" = JsNum.num (181/2) ∧
    (∀ s : String, (splitOnChar ':' s.toList).length < 3 →
      parseFfmpegTime s = JsNum.num 0) ∧
    parseFfmpegTime "garbage" = JsNum.num 0 := by
  refine ⟨?_, ?_, ?_⟩
  · have h := parseFfmpegTime_matched '0' '0' '0' '1' '3' '0' ['5', '0']
      (by decide) (by decide) (by decide) (by decide) (by decide) (by decide) (by decide)
    rw [show ("00:01:30.50" : String)
      = String.mk ['0', '0', ':', '0', '1', ':', '3', '0', '.', '5', '0'] from rfl]
    rw [h]
    norm_num [show digitsVal ['0', '0'] = 0 from by decide,
      show digitsVal ['0', '1'] = 1 from by decide,
      show digitsVal ['3', '0'] = 30 from by decide,
      show digitsVal ['5', '0'] = 50 from by decide]
  · intro s hlen
    simp only [parseFfmpegTime]
    rw [if_pos hlen]
  · simp only [parseFfmpegTime]
    rw [if_pos (by decide)]

/-- C7 witness: a concrete malformed input with fewer than 3 colon-delimited
parts evaluates to 0 by the theorem. -/
theorem C7_witness :
    (splitOnChar ':' "xy".toList).length < 3 ∧ parseFfmpegTime "xy" = JsNum.num 0 :=
  ⟨by decide, C7_parseEngineTimestamp.2.1 "xy" (by decide)⟩

/-- C10: on an input with at least 3 colon-delimited parts whose parts are not
decimal numerals, `parseFfmpegTime` returns NaN rather than 0: the 0 fallback
applies only to inputs with fewer than 3 parts, and the parts are never
validated as numbers. -/
theorem C10_nonNumericPartsNaN :
    parseFfmpegTime "aa:bb:cc" = JsNum.nan ∧
    (splitOnChar ':' "aa:bb:cc".toList).length = 3 ∧
    JsNum.nan ≠ JsNum.num 0 := by
  refine ⟨by decide, by decide, by decide⟩

/-- C5: at file selection, a source of exactly 1 GiB + 1 byte is rejected with
the size-limit error before any engine interaction, while a source of exactly
1 GiB is accepted. -/
theorem C5_sizeLimitBoundary :
    (handleFileChange (some { name := "big.mov", size := 1024 * 1024 * 1024 + 1 })).outcome
      = SelectOutcome.rejected "ファイルサイズが大きすぎます (1GB制限)" ∧
    (handleFileChange (some { name := "big.mov", size := 1024 * 1024 * 1024 + 1 })).engineSteps
      = [] ∧
    (handleFileChange (some { name := "big.mov", size := 1024 * 1024 * 1024 + 1 })).videoFileSet
      = false ∧
    (handleFileChange (some { name := "ok.mov", size := 1024 * 1024 * 1024 })).outcome
      = SelectOutcome.accepted ∧
    (handleFileChange (some { name := "ok.mov", size := 1024 * 1024 * 1024 })).videoFileSet
      = true := by
  refine ⟨by decide, by decide, by decide, by decide, by decide⟩

/-- C2 counterexample: the claim says a filename with no dot yields extension
`mp4`, but for the dotless name `video` the derived input name is
`input_source.video`, not `input_source.mp4` (JavaScript
`"video".split('.').pop()` is `"video"`, which is truthy, so the `|| 'mp4'`
fallback never fires). -/
theorem C2_counterexample :
    ("video".toList.contains '.') = false ∧
    safeInputName "video" = "input_source.video" ∧
    ("input_source.video" : String) ≠ "input_source.mp4" := by
  refine ⟨by decide, rfl, by decide⟩

/-- C2 (amended): the extension is the lower-cased substring after the last
dot; when the filename contains no dot the entire lower-cased filename is
used as the extension (mp4 is used only when the substring after the last
dot is empty, e.g. a name ending in a dot); `clip:weird name.mov` yields
exactly `input_source.mov`, and the output name is always the literal
`output_processed.mp4`. -/
theorem C2_amendedExtensionRule :
    (∀ name : String, name.toList ≠ [] → (∀ c ∈ name.toList, c ≠ '.') →
      safeInputName name = "input_source." ++ String.mk (name.toList.map Char.toLower)) ∧
    safeInputName "clip:weird name.mov" = "input_source.mov" ∧
    safeInputName "file." = "input_source.mp4" ∧
    safeOutputName = "output_processed.mp4" := by
  refine ⟨?_, rfl, rfl, rfl⟩
  intro name hne hnodot
  simp only [safeInputName, deriveExtension]
  rw [splitOnChar_no_sep '.' name.toList hnodot]
  rw [List.getLastD_cons, List.getLastD_nil]
  rw [if_neg hne]

/-- C2 witness: the amended extension rule applied to the concrete dotless
name `video`. -/
theorem C2_witness :
    safeInputName "video" = "input_source." ++ String.mk ("video".toList.map Char.toLower) :=
  C2_amendedExtensionRule.1 "video" (by decide) (by decide)

/-- C3 counterexample: an export requested with no selected source does not
produce any typed failure: the handler returns before the pipeline starts
(outcome `notStarted`, no error banner, no engine operation), so no
`NoSourceError`-like failure value exists. -/
theorem C3_counterexample :
    (handleExport none 0 10
        { loaded := true, loadOk := true, writeOk := true, runOk := true,
          readOk := true, unlinkOk := true } LogSink.initial).outcome
      = ExportOutcome.notStarted ∧
    (handleExport none 0 10
        { loaded := true, loadOk := true, writeOk := true, runOk := true,
          readOk := true, unlinkOk := true } LogSink.initial).errorMsg = none ∧
    (handleExport none 0 10
        { loaded := true, loadOk := true, writeOk := true, runOk := true,
          readOk := true, unlinkOk := true } LogSink.initial).steps = [] ∧
    ExportOutcome.notStarted ≠ ExportOutcome.failure ∧
    ExportOutcome.notStarted ≠ ExportOutcome.success := by
  refine ⟨rfl, rfl, rfl, by decide, by decide⟩

/-- C3 (amended): when no MediaSource is selected the export request returns
immediately — before any pipeline step and before `isProcessing` is set —
but silently: no typed error is produced and no error banner is set
(`if (!videoFile) return;`). -/
theorem C3_amendedSilentReturn (rangeStart rangeEnd : ℚ) (env : EngineEnv)
    (sink0 : LogSink) :
    handleExport none rangeStart rangeEnd env sink0
      = { steps := [], outcome := ExportOutcome.notStarted, errorMsg := none,
          isProcessingNow := false, clearDelayMs := none, finalSink := sink0 } := rfl

/-- C4 counterexample: the export pipeline performs no size re-validation:
a source of 1 GiB + 1 bytes flows through `handleExport` to the virtual
filesystem write and the job even succeeds, with no error recorded. -/
theorem C4_counterexample :
    Step.write "input_source.mp4" ∈
      (handleExport (some { name := "big.mp4", size := 1024 * 1024 * 1024 + 1 }) 0 10
        { loaded := true, loadOk := true, writeOk := true, runOk := true,
          readOk := true, unlinkOk := true } LogSink.initial).steps ∧
    (handleExport (some { name := "big.mp4", size := 1024 * 1024 * 1024 + 1 }) 0 10
        { loaded := true, loadOk := true, writeOk := true, runOk := true,
          readOk := true, unlinkOk := true } LogSink.initial).outcome
      = ExportOutcome.success ∧
    (handleExport (some { name := "big.mp4", size := 1024 * 1024 * 1024 + 1 }) 0 10
        { loaded := true, loadOk := true, writeOk := true, runOk := true,
          readOk := true, unlinkOk := true } LogSink.initial).errorMsg = none ∧
    1024 * 1024 * 1024 < (1024 * 1024 * 1024 + 1 : ℕ) := by
  refine ⟨?_, ?_, ?_, by norm_num⟩
  · simp only [handleExport, tryBody]
    simp only [show safeInputName "big.mp4" = "input_source.mp4" from rfl]
    simp
  · simp [handleExport, tryBody]
  · simp [handleExport, tryBody]

/-- C4 (amended): the 1 GiB size invariant is enforced only at selection time
(`handleFileChange`); the export pipeline never reads the source's byte size,
so its behavior is identical for any two sizes of the same-named source —
there is no re-validation before the virtual-filesystem write. -/
theorem C4_amendedNoSizeRecheck (name : String) (sz1 sz2 : ℕ)
    (rangeStart rangeEnd : ℚ) (env : EngineEnv) (sink0 : LogSink) :
    handleExport (some { name := name, size := sz1 }) rangeStart rangeEnd env sink0
      = handleExport (some { name := name, size := sz2 }) rangeStart rangeEnd env sink0 := rfl

/-- C9: every started export — success or any failure, including an engine
run failure — resolves to a terminal outcome, detaches the progress log sink
(restoring the no-op sink), and schedules the job to be marked no longer in
progress after the fixed 1000 ms delay, after which a new export is possible. -/
theorem C9_terminalCleanup (file : JsFile) (rangeStart rangeEnd : ℚ)
    (env : EngineEnv) (sink0 : LogSink) :
    ((handleExport (some file) rangeStart rangeEnd env sink0).outcome = ExportOutcome.success ∨
     (handleExport (some file) rangeStart rangeEnd env sink0).outcome = ExportOutcome.failure) ∧
    (handleExport (some file) rangeStart rangeEnd env sink0).finalSink = LogSink.noop ∧
    (handleExport (some file) rangeStart rangeEnd env sink0).clearDelayMs = some 1000 ∧
    isProcessingAfterDelay (handleExport (some file) rangeStart rangeEnd env sink0) = false ∧
    (env.loaded = true → env.writeOk = true → env.runOk = false →
      (handleExport (some file) rangeStart rangeEnd env sink0).outcome
        = ExportOutcome.failure) := by
  refine ⟨?_, rfl, rfl, rfl, ?_⟩
  · by_cases h : (tryBody file rangeStart rangeEnd env).2 = true
    · left
      simp [handleExport, h]
    · right
      simp [handleExport, h]
  · intro hl hw hr
    simp [handleExport, tryBody, hl, hw, hr]

/-- C9 witness: a concrete engine-run failure resolves to `Failure`, detaches
the log sink, and is marked not-in-progress after the fixed delay. -/
theorem C9_witness :
    ((handleExport (some { name := "a.mp4", size := 5 }) 0 10
        { loaded := true, loadOk := true, writeOk := true, runOk := false,
          readOk := true, unlinkOk := true } LogSink.initial).outcome
          = ExportOutcome.success ∨
     (handleExport (some { name := "a.mp4", size := 5 }) 0 10
        { loaded := true, loadOk := true, writeOk := true, runOk := false,
          readOk := true, unlinkOk := true } LogSink.initial).outcome
          = ExportOutcome.failure) ∧
    (handleExport (some { name := "a.mp4", size := 5 }) 0 10
        { loaded := true, loadOk := true, writeOk := true, runOk := false,
          readOk := true, unlinkOk := true } LogSink.initial).finalSink = LogSink.noop ∧
    (handleExport (some { name := "a.mp4", size := 5 }) 0 10
        { loaded := true, loadOk := true, writeOk := true, runOk := false,
          readOk := true, unlinkOk := true } LogSink.initial).clearDelayMs = some 1000 ∧
    isProcessingAfterDelay (handleExport (some { name := "a.mp4", size := 5 }) 0 10
        { loaded := true, loadOk := true, writeOk := true, runOk := false,
          readOk := true, unlinkOk := true } LogSink.initial) = false ∧
    (handleExport (some { name := "a.mp4", size := 5 }) 0 10
        { loaded := true, loadOk := true, writeOk := true, runOk := false,
          readOk := true, unlinkOk := true } LogSink.initial).outcome
      = ExportOutcome.failure :=
  have h := C9_terminalCleanup { name := "a.mp4", size := 5 } 0 10
    { loaded := true, loadOk := true, writeOk := true, runOk := false,
      readOk := true, unlinkOk := true } LogSink.initial
  ⟨h.1, h.2.1, h.2.2.1, h.2.2.2.1, h.2.2.2.2 rfl rfl rfl⟩

/-- C8: if the watched pair becomes (processing, progress 0) at time `t` and
nothing changes for 5000 ms, the fired timer sets the advisory stall flag;
any update with positive progress or with processing ended resets the flag to
false; and firing the stall timer never alters the job itself (it changes
neither `isProcessing` nor `progress`). -/
theorem C8_stallFlag :
    (∀ (s : SlowState) (t : ℕ),
      (slowStep (slowStep s (SlowEvent.update true (JsNum.num 0) t))
        (SlowEvent.fire (t + 5000))).isSlow = true) ∧
    (∀ (s : SlowState) (t : ℕ) (q : ℚ), 0 < q →
      (slowStep s (SlowEvent.update true (JsNum.num q) t)).isSlow = false) ∧
    (∀ (s : SlowState) (pr : JsNum) (t : ℕ),
      (slowStep s (SlowEvent.update false pr t)).isSlow = false) ∧
    (∀ (s : SlowState) (t : ℕ),
      (slowStep s (SlowEvent.fire t)).isProcessing = s.isProcessing ∧
      (slowStep s (SlowEvent.fire t)).progress = s.progress) := by
  refine ⟨?_, ?_, ?_, ?_⟩
  · intro s t
    simp [slowStep]
  · intro s t q hq
    simp [slowStep, hq.ne']
  · intro s pr t
    simp [slowStep]
  · intro s t
    cases hd : s.timerDeadline with
    | none => simp [slowStep, hd]
    | some d =>
        by_cases hle : d ≤ t
        · simp [slowStep, hd, hle]
        · simp [slowStep, hd, hle]

/-- C8 witness: the reset clause of the stall theorem applied to a concrete
state and a concrete positive progress value. -/
theorem C8_witness :
    (slowStep (SlowState.mk true (JsNum.num 0) true none)
      (SlowEvent.update true (JsNum.num 1) 0)).isSlow = false :=
  C8_stallFlag.2.1 (SlowState.mk true (JsNum.num 0) true none) 0 1 (by norm_num)

/-! ### Concrete log lines used by the progress claims -/

theorem parse_ts05 :
    parseFfmpegTime (String.mk ['0', '0', ':', '0', '0', ':', '0', '5', '.', '0', '0'])
      = JsNum.num 5 := by
  rw [parseFfmpegTime_matched '0' '0' '0' '0' '0' '5' ['0', '0'] (by decide) (by decide)
      (by decide) (by decide) (by decide) (by decide) (by decide)]
  norm_num [show digitsVal ['0', '0'] = 0 from by decide,
    show digitsVal ['0', '5'] = 5 from by decide]

theorem parse_ts02 :
    parseFfmpegTime (String.mk ['0', '0', ':', '0', '0', ':', '0', '2', '.', '0', '0'])
      = JsNum.num 2 := by
  rw [parseFfmpegTime_matched '0' '0' '0' '0' '0' '2' ['0', '0'] (by decide) (by decide)
      (by decide) (by decide) (by decide) (by decide) (by decide)]
  norm_num [show digitsVal ['0', '0'] = 0 from by decide,
    show digitsVal ['0', '2'] = 2 from by decide]

theorem lineA_percent :
    logLinePercent 10 "frame=1 time=00:00:05.00 bitrate=2.0x" = some (JsNum.num 50) := by
  rw [logLinePercent_some (show (10 : ℚ) ≠ 0 by norm_num)
    (show findTimeMatch ("frame=1 time=00:00:05.00 bitrate=2.0x").toList
      = some ['0', '0', ':', '0', '0', ':', '0', '5', '.', '0', '0'] from by decide)
    parse_ts05]
  norm_num

theorem lineB_percent :
    logLinePercent 10 "frame=2 time=00:00:02.00 bitrate=2.0x" = some (JsNum.num 20) := by
  rw [logLinePercent_some (show (10 : ℚ) ≠ 0 by norm_num)
    (show findTimeMatch ("frame=2 time=00:00:02.00 bitrate=2.0x").toList
      = some ['0', '0', ':', '0', '0', ':', '0', '2', '.', '0', '0'] from by decide)
    parse_ts02]
  norm_num

/-- C1 counterexample: in one job with requested duration 10 s, a log line
with timestamp 5 s publishes progress 50, and a later log line carrying the
smaller raw timestamp 2 s publishes progress 20 — the published sequence
[50, 20] decreases, so published progress is not monotonically
non-decreasing. -/
theorem C1_counterexample :
    publishedValues 10 ["frame=1 time=00:00:05.00 bitrate=2.0x",
        "frame=2 time=00:00:02.00 bitrate=2.0x"]
      = [JsNum.num 50, JsNum.num 20] ∧ (20 : ℚ) < 50 := by
  constructor
  · simp [publishedValues, lineA_percent, lineB_percent]
  · norm_num

/-- C1 (amended): each published progress value is a function of that line's
timestamp alone, so the published sequence is non-decreasing whenever the raw
timestamps are non-decreasing; a later smaller raw timestamp, however, is
republished as a smaller value (the code installs no monotonicity guard). -/
theorem C1_amendedMonotoneTimestamps
    (dur q1 q2 : ℚ) (m1 m2 : String) (ts1 ts2 : List Char) (v1 v2 : JsNum)
    (hdur : 0 < dur)
    (h1 : findTimeMatch m1.toList = some ts1)
    (h2 : findTimeMatch m2.toList = some ts2)
    (hp1 : parseFfmpegTime (String.mk ts1) = JsNum.num q1)
    (hp2 : parseFfmpegTime (String.mk ts2) = JsNum.num q2)
    (hle : q1 ≤ q2)
    (hv1 : logLinePercent dur m1 = some v1)
    (hv2 : logLinePercent dur m2 = some v2) :
    ∃ r1 r2 : ℚ, v1 = JsNum.num r1 ∧ v2 = JsNum.num r2 ∧ r1 ≤ r2 :=
  ⟨_, _, logLinePercent_eq hdur.ne' h1 hp1 hv1, logLinePercent_eq hdur.ne' h2 hp2 hv2,
    percent_mono hdur hle⟩

/-- C1 witness: the amended monotonicity applied to two concrete log lines
whose raw timestamps are in non-decreasing order (2 s then 5 s). -/
theorem C1_witness :
    ∃ r1 r2 : ℚ, JsNum.num 20 = JsNum.num r1 ∧ JsNum.num 50 = JsNum.num r2 ∧ r1 ≤ r2 :=
  C1_amendedMonotoneTimestamps 10 2 5 "frame=2 time=00:00:02.00 bitrate=2.0x"
    "frame=1 time=00:00:05.00 bitrate=2.0x"
    ['0', '0', ':', '0', '0', ':', '0', '2', '.', '0', '0']
    ['0', '0', ':', '0', '0', ':', '0', '5', '.', '0', '0']
    (JsNum.num 20) (JsNum.num 50) (by norm_num) (by decide) (by decide)
    parse_ts02 parse_ts05 (by norm_num) lineB_percent lineA_percent

/-- C6: for every log line whose `time=` token carries a well-formed
timestamp parsing to `q`, with positive requested duration `dur`, the
published progress is exactly `min(round(q/dur*100), 100)`; that value lies
in [0, 100], and a timestamp exceeding the requested duration publishes
exactly 100, never more. -/
theorem C6_progressFormula (dur q : ℚ) (msg : String) (ts : List Char)
    (hdur : 0 < dur)
    (hm : findTimeMatch msg.toList = some ts)
    (hp : parseFfmpegTime (String.mk ts) = JsNum.num q) :
    logLinePercent dur msg
      = some (JsNum.num (min ((⌊q / dur * 100 + 1/2⌋ : ℤ) : ℚ) 100)) ∧
    0 ≤ min ((⌊q / dur * 100 + 1/2⌋ : ℤ) : ℚ) 100 ∧
    min ((⌊q / dur * 100 + 1/2⌋ : ℤ) : ℚ) 100 ≤ 100 ∧
    (dur < q → min ((⌊q / dur * 100 + 1/2⌋ : ℤ) : ℚ) 100 = 100) := by
  have hq : 0 ≤ q := by
    obtain ⟨q0, hq0, hpq⟩ := findTimeMatch_parse hm
    rw [hp] at hpq
    injection hpq with hqq
    rw [hqq]
    exact hq0
  exact ⟨logLinePercent_some hdur.ne' hm hp, (percent_bounds hdur hq).1,
    (percent_bounds hdur hq).2, fun h => percent_full hdur h⟩

/-- C6 witness: the formula applied to a concrete log line (timestamp 5 s,
duration 10 s). -/
theorem C6_witness :
    logLinePercent 10 "frame=1 time=00:00:05.00 bitrate=2.0x"
      = some (JsNum.num (min ((⌊(5 : ℚ) / 10 * 100 + 1/2⌋ : ℤ) : ℚ) 100)) ∧
    0 ≤ min ((⌊(5 : ℚ) / 10 * 100 + 1/2⌋ : ℤ) : ℚ) 100 ∧
    min ((⌊(5 : ℚ) / 10 * 100 + 1/2⌋ : ℤ) : ℚ) 100 ≤ 100 ∧
    ((10 : ℚ) < 5 → min ((⌊(5 : ℚ) / 10 * 100 + 1/2⌋ : ℤ) : ℚ) 100 = 100) :=
  C6_progressFormula 10 5 "frame=1 time=00:00:05.00 bitrate=2.0x"
    ['0', '0', ':', '0', '0', ':', '0', '5', '.', '0', '0']
    (by norm_num) (by decide) parse_ts05
